import Mathlib

/-!
Verification of the direct-message text → markdown conversion pipeline of
`script/scrape_twitter_txt_epub.py`.  The Python source is shallowly embedded:
strings are Lean `String`s (character lists), Python slices and `str.split` /
`str.replace` / `str.strip` are modelled as executable list functions, the
mutable module globals (`last_time`, `last_year`, `last_mnth`, `last_date`,
`css_name_dict`) are threaded explicitly as state, and a Python exception that
aborts the run is modelled by `Option` / `none`.
-/

set_option maxHeartbeats 1000000

namespace ScrapeTwitterDm

/-- ASCII model of Python whitespace: the character class matched by `str.strip()`
and by `\s` in the `re` module (space, tab, newline, carriage return, vertical
tab 0x0b, form feed 0x0c).  The inputs of this development are ASCII. -/
def isPySpace (c : Char) : Bool :=
  c == ' ' || c == '\t' || c == '\n' || c == '\r' || c == Char.ofNat 11 || c == Char.ofNat 12

/-- Python `s.split(sep)` for a single-character separator: splits at every
occurrence of `sep`; `"".split(sep) = ['']`. -/
def pySplit (sep : Char) : List Char → List (List Char)
  | [] => [[]]
  | c :: cs =>
    if c = sep then [] :: pySplit sep cs
    else
      match pySplit sep cs with
      | h :: t => (c :: h) :: t
      | [] => [[c]]

/-- `pySplit` lifted to `String`. -/
def pySplitS (sep : Char) (s : String) : List String :=
  (pySplit sep s.data).map String.mk

/-- Number of occurrences of a character in a string (character list). -/
def countChar (sep : Char) : List Char → Nat
  | [] => 0
  | c :: cs => (if c = sep then 1 else 0) + countChar sep cs

/-- `litPref pat l` decides whether the literal `pat` is a prefix of `l`. -/
def litPref : List Char → List Char → Bool
  | [], _ => true
  | _ :: _, [] => false
  | p :: ps, c :: cs => p == c && litPref ps cs

/-- `hasSub pat l` decides whether `pat` occurs as a contiguous substring of `l`
(Python `pat in l`). -/
def hasSub (pat : List Char) : List Char → Bool
  | [] => litPref pat []
  | c :: cs => litPref pat (c :: cs) || hasSub pat cs

/-- The scan of Python `s.replace(pat, rep)` for a non-empty pattern `p0 :: ps`:
left to right, replace each non-overlapping occurrence and continue after it.
`fuel` bounds the scan; every step consumes at least one character, so fuel
equal to the input length never cuts it short. -/
def pyReplaceAux (p0 : Char) (ps rep : List Char) : Nat → List Char → List Char
  | 0, l => l
  | _ + 1, [] => []
  | fuel + 1, c :: cs =>
    if c = p0 ∧ litPref ps cs then rep ++ pyReplaceAux p0 ps rep fuel (cs.drop ps.length)
    else c :: pyReplaceAux p0 ps rep fuel cs

/-- Python `s.replace(pat, rep)` for a non-empty pattern `p0 :: ps`. -/
def pyReplace (p0 : Char) (ps rep l : List Char) : List Char :=
  pyReplaceAux p0 ps rep l.length l

/-- Trailing-whitespace strip (the right half of Python `str.strip()`). -/
def rstripCh (l : List Char) : List Char :=
  (l.reverse.dropWhile isPySpace).reverse

/-- Python `str.strip()`: remove leading and trailing whitespace. -/
def pyStrip (l : List Char) : List Char :=
  rstripCh (l.dropWhile isPySpace)

/-! ### DateFormatter: `to_date` and its projections

`to_date` embeds `datetime.fromisoformat(time[:-1]).strftime('%a %d %b %Y %H:%M')`.
`fromisoformat` (CPython ≤ 3.10) accepts `YYYY-MM-DD`, optionally followed by a
one-character separator and `HH:MM`, `HH:MM:SS`, `HH:MM:SS.fff` or
`HH:MM:SS.ffffff`, with all field values range-checked; anything else raises
`ValueError`, modelled by `none`. -/

structure Dt where
  year : Nat
  month : Nat
  day : Nat
  hour : Nat
  minute : Nat
deriving Repr, DecidableEq

/-- Proleptic-Gregorian leap-year test, as in `datetime`. -/
def isLeap (y : Nat) : Bool :=
  y % 4 == 0 && (y % 100 != 0 || y % 400 == 0)

/-- Days in a month of the proleptic Gregorian calendar. -/
def daysInMonth (y m : Nat) : Nat :=
  if m = 2 then (if isLeap y then 29 else 28)
  else if m = 4 ∨ m = 6 ∨ m = 9 ∨ m = 11 then 30
  else 31

/-- Numeric value of two decimal digit characters. -/
def d2 (a b : Char) : Nat :=
  10 * (a.toNat - 48) + (b.toNat - 48)

/-- Numeric value of four decimal digit characters. -/
def d4 (a b c d : Char) : Nat :=
  1000 * (a.toNat - 48) + 100 * (b.toNat - 48) + 10 * (c.toNat - 48) + (d.toNat - 48)

/-- Parse and range-check the `YYYY-MM-DD` date part of an ISO string. -/
def parseDate (y1 y2 y3 y4 s1 m1 m2 s2 dd1 dd2 : Char) : Option (Nat × Nat × Nat) :=
  if ([y1, y2, y3, y4, m1, m2, dd1, dd2].all Char.isDigit) ∧ s1 = '-' ∧ s2 = '-' then
    let y := d4 y1 y2 y3 y4
    let m := d2 m1 m2
    let d := d2 dd1 dd2
    if 1 ≤ y ∧ 1 ≤ m ∧ m ≤ 12 ∧ 1 ≤ d ∧ d ≤ daysInMonth y m then some (y, m, d)
    else none
  else none

/-- Parse and range-check the time part of an ISO string
(`HH:MM`, `HH:MM:SS`, `HH:MM:SS.fff` or `HH:MM:SS.ffffff`); returns hour and
minute (seconds and fraction are validated but not displayed by the format). -/
def parseTime : List Char → Option (Nat × Nat)
  | [h1, h2, c1, m1, m2] =>
    if ([h1, h2, m1, m2].all Char.isDigit) ∧ c1 = ':' ∧ d2 h1 h2 ≤ 23 ∧ d2 m1 m2 ≤ 59 then
      some (d2 h1 h2, d2 m1 m2)
    else none
  | [h1, h2, c1, m1, m2, c2, s1, s2] =>
    if ([h1, h2, m1, m2, s1, s2].all Char.isDigit) ∧ c1 = ':' ∧ c2 = ':' ∧
        d2 h1 h2 ≤ 23 ∧ d2 m1 m2 ≤ 59 ∧ d2 s1 s2 ≤ 59 then
      some (d2 h1 h2, d2 m1 m2)
    else none
  | [h1, h2, c1, m1, m2, c2, s1, s2, p, f1, f2, f3] =>
    if ([h1, h2, m1, m2, s1, s2, f1, f2, f3].all Char.isDigit) ∧ c1 = ':' ∧ c2 = ':' ∧ p = '.' ∧
        d2 h1 h2 ≤ 23 ∧ d2 m1 m2 ≤ 59 ∧ d2 s1 s2 ≤ 59 then
      some (d2 h1 h2, d2 m1 m2)
    else none
  | [h1, h2, c1, m1, m2, c2, s1, s2, p, f1, f2, f3, f4, f5, f6] =>
    if ([h1, h2, m1, m2, s1, s2, f1, f2, f3, f4, f5, f6].all Char.isDigit) ∧ c1 = ':' ∧ c2 = ':' ∧ p = '.' ∧
        d2 h1 h2 ≤ 23 ∧ d2 m1 m2 ≤ 59 ∧ d2 s1 s2 ≤ 59 then
      some (d2 h1 h2, d2 m1 m2)
    else none
  | _ => none

/-- `datetime.fromisoformat` on a character list (see the section comment). -/
def parseIso : List Char → Option Dt
  | [y1, y2, y3, y4, s1, m1, m2, s2, dd1, dd2] =>
    (parseDate y1 y2 y3 y4 s1 m1 m2 s2 dd1 dd2).map fun (y, m, d) => ⟨y, m, d, 0, 0⟩
  | y1 :: y2 :: y3 :: y4 :: s1 :: m1 :: m2 :: s2 :: dd1 :: dd2 :: _sep :: rest =>
    match parseDate y1 y2 y3 y4 s1 m1 m2 s2 dd1 dd2, parseTime rest with
    | some (y, m, d), some (hh, mi) => some ⟨y, m, d, hh, mi⟩
    | _, _ => none
  | _ => none

/-- Day of the week of a proleptic-Gregorian date, 0 = Sunday (Sakamoto's
congruence, agreeing with `datetime.weekday` / strftime `%a`). -/
def sakamoto (y m d : Nat) : Nat :=
  let y' := if m < 3 then y - 1 else y
  (y' + y' / 4 - y' / 100 + y' / 400 + [0, 3, 2, 5, 0, 3, 5, 1, 4, 6, 2, 4].getD (m - 1) 0 + d) % 7

/-- strftime `%a` day-of-week abbreviations. -/
def dayName (y m d : Nat) : String :=
  ["Sun", "Mon", "Tue", "Wed", "Thu", "Fri", "Sat"].getD (sakamoto y m d) ""

/-- strftime `%b` month abbreviations. -/
def monthAbb (m : Nat) : String :=
  ["Jan", "Feb", "Mar", "Apr", "May", "Jun", "Jul", "Aug", "Sep", "Oct", "Nov", "Dec"].getD (m - 1) ""

/-- Zero-padded two-digit decimal rendering (strftime `%d`, `%H`, `%M`). -/
def pad2 (n : Nat) : String :=
  if n < 10 then "0" ++ toString n else toString n

/-- strftime `'%a %d %b %Y %H:%M'`, e.g. `"Wed 08 May 2019 08:27"`. -/
def fmtDt (t : Dt) : String :=
  dayName t.year t.month t.day ++ " " ++ pad2 t.day ++ " " ++ monthAbb t.month ++ " " ++
    toString t.year ++ " " ++ pad2 t.hour ++ ":" ++ pad2 t.minute

/-- `to_date`: convert `'2019-05-08T08:27:07.472Z'` to `'Wed 08 May 2019 08:27'`;
the source strips the final character (`time[:-1]`) and parses the rest, raising
(`none`) on anything `fromisoformat` rejects. -/
def to_date (time : String) : Option String :=
  (parseIso time.data.dropLast).map fmtDt

/-- `to_small_date`: wrap `to_date` in a `datesmall` span with `&nbsp;` spaces. -/
def to_small_date (time : String) : Option String :=
  (to_date time).map fun s =>
    "<span class=datesmall>" ++ (⟨pyReplace ' ' [] "&nbsp;".data s.data⟩ : String) ++ "</span>"

/-- `to_year_only`: the raw slice `time[:4]`, e.g. `'2019'`. -/
def to_year_only (time : String) : String :=
  ⟨time.data.take 4⟩

/-- `to_month_only`: the slice `to_date(time)[7:10]`, e.g. `'May'`. -/
def to_month_only (time : String) : Option String :=
  (to_date time).map fun s => ⟨(s.data.drop 7).take 3⟩

/-- `to_date_only`: the slice `to_date(time)[:15]`, e.g. `'Wed 08 May 2019'`. -/
def to_date_only (time : String) : Option String :=
  (to_date time).map fun s => ⟨s.data.take 15⟩

/-! ### TextSanitizer: `to_link` and `to_text`

`urlfinder = re.compile(r'(http([^\.\s]+\.[^\.\s]*)+[^\.\s]{2,})')` and
`to_link = urlfinder.sub(r'[\1](\1)', text)`.  The pattern is embedded as a
specialised backtracking matcher with Python `re` semantics: the scan tries a
match at each position from the left, quantifiers are greedy and backtrack
depth-first, and each match is rewritten to `[match](match)` with scanning
resuming after the match. -/

/-- The regex character class `[^\.\s]`: anything but a dot or whitespace. -/
def okc (c : Char) : Bool :=
  !(c == '.' || isPySpace c)

/-- Greedy `[^\.\s]*` followed by the continuation `k`: tries the longest
consumption first and backtracks to shorter ones when `k` fails.  Returns the
characters matched from this point on, paired with the remaining input. -/
def starOk (k : List Char → Option (List Char × List Char)) :
    List Char → Option (List Char × List Char)
  | [] => k []
  | c :: cs =>
    if okc c then
      match starOk k cs with
      | some (m, r) => some (c :: m, r)
      | none => k (c :: cs)
    else k (c :: cs)

/-- Greedy `[^\.\s]+` followed by the continuation `k`. -/
def plusOk (k : List Char → Option (List Char × List Char)) :
    List Char → Option (List Char × List Char)
  | [] => none
  | c :: cs =>
    if okc c then
      match starOk k cs with
      | some (m, r) => some (c :: m, r)
      | none => none
    else none

/-- The group `[^\.\s]+\.[^\.\s]*` followed by the continuation `k`. -/
def groupOk (k : List Char → Option (List Char × List Char)) :
    List Char → Option (List Char × List Char) :=
  plusOk fun r =>
    match r with
    | '.' :: r' =>
      match starOk k r' with
      | some (m, rest) => some ('.' :: m, rest)
      | none => none
    | _ => none

/-- The trailing `[^\.\s]{2,}`, greedy and last in the pattern: take the maximal
run of allowed characters and succeed iff it has length at least two. -/
def tail2 (l : List Char) : Option (List Char × List Char) :=
  let run := l.takeWhile okc
  if 2 ≤ run.length then some (run, l.drop run.length) else none

/-- `(group)*` followed by `[^\.\s]{2,}`: greedily try one more group iteration
first, falling back to the tail.  `fuel` bounds the number of iterations; each
group iteration consumes at least two characters, so fuel equal to the input
length never truncates the search. -/
def groupStar : Nat → List Char → Option (List Char × List Char)
  | 0, l => tail2 l
  | fuel + 1, l =>
    match groupOk (fun r => groupStar fuel r) l with
    | some res => some res
    | none => tail2 l

/-- Try the whole URL pattern at the current position: the literal `http`, then
`([^\.\s]+\.[^\.\s]*)+`, then `[^\.\s]{2,}`. -/
def tryMatch (l : List Char) : Option (List Char × List Char) :=
  if litPref ['h', 't', 't', 'p'] l then
    match groupOk (fun r => groupStar r.length r) (l.drop 4) with
    | some (m, r2) => some ('h' :: 't' :: 't' :: 'p' :: m, r2)
    | none => none
  else none

/-- The substitution scan of `urlfinder.sub`: at each position try the pattern;
on a match emit `[m](m)` and resume after the match, otherwise copy one
character.  `fuel` bounds the scan; every step consumes at least one character,
so fuel equal to the input length suffices. -/
def subAux : Nat → List Char → List Char
  | 0, l => l
  | _ + 1, [] => []
  | fuel + 1, c :: cs =>
    match tryMatch (c :: cs) with
    | some (m, r) => '[' :: (m ++ ']' :: '(' :: (m ++ ')' :: subAux fuel r))
    | none => c :: subAux fuel cs

/-- `to_link`: convert urls to markdown links via `urlfinder.sub(r'[\1](\1)', ·)`. -/
def to_link (text : String) : String :=
  ⟨subAux text.data.length text.data⟩

/-- `to_text`: `to_link(text.strip().replace('\\n', '\n').replace('[', '\\['))`. -/
def to_text (text : String) : String :=
  to_link ⟨pyReplace '[' [] ['\\', '['] (pyReplace '\\' ['n'] ['\n'] (pyStrip text.data))⟩

/-! ### ParticipantStyler -/

/-- The participant style map `css_name_dict`; a later insertion shadows an
earlier one (prepend + first-match lookup models Python dict overwrite). -/
def CssMap : Type := List (String × String)

/-- `to_css_class`: `css_name_dict[name] if name in css_name_dict else 'sender1'`. -/
def to_css_class (css : CssMap) (name : String) : String :=
  match List.lookup name css with
  | some v => v
  | none => "sender1"

/-- `to_name`: the styled sender span followed by the name dash. -/
def to_name (css : CssMap) (name : String) : String :=
  "<span class=" ++ to_css_class css name ++ ">" ++ name ++
    "</span> <span class=namedash>&ndash;</span> "

/-- Body of the loop of `create_css_participant_styles`: `key, value = arg.split(':')`
raises `ValueError` (modelled `none`) unless the segment splits in exactly two. -/
def cssFold : CssMap → List String → Option CssMap
  | d, [] => some d
  | d, seg :: rest =>
    match pySplitS ':' seg with
    | [k, v] => cssFold ((k, v) :: d) rest
    | _ => none

/-- `create_css_participant_styles`: `args.css_participants` is `None` or a string;
a falsy value (absent or empty) leaves the dictionary untouched, otherwise the
comma-separated `name:style` pairs are inserted in order. -/
def create_css_participant_styles (d : CssMap) (css_participants : Option String) :
    Option CssMap :=
  match css_participants with
  | none => some d
  | some cfg => if cfg = "" then some d else cssFold d (pySplitS ',' cfg)

/-! ### HeadingGrouper

The module globals `last_time`, `last_year`, `last_mnth`, `last_date` become an
explicit state record; `to_heading` is a state transformer.  Passing the `None`
timestamp of an initial fallback record raises `TypeError` inside
`to_year_only(None)`; an unparseable timestamp raises `ValueError` inside
`to_month_only`; both abort the run and are modelled by `none`. -/

structure GState where
  last_time : Option String
  last_year : Option String
  last_mnth : Option String
  last_date : Option String
deriving Repr, DecidableEq

/-- The state of the module globals at interpreter start: all `None`. -/
def initState : GState :=
  ⟨none, none, none, none⟩

/-- Python `'{}'.format` of a value that is a string or `None`. -/
def optStr : Option String → String
  | some s => s
  | none => "None"

/-- `to_heading`: updates `last_time` and the three grouping keys and returns the
heading text for one record — the pending month line followed by the date line
when the day-level key changed, the empty string otherwise. -/
def to_heading (st : GState) (time : Option String) : Option (String × GState) :=
  match time with
  | none => none
  | some t =>
    match to_month_only t, to_date_only t with
    | some mkey, some dkey =>
      let st1 : GState := { st with last_time := some t }
      let st2 : GState :=
        if st1.last_year ≠ some (to_year_only t) then
          { st1 with last_year := some (to_year_only t) }
        else st1
      let md : String × GState :=
        if st2.last_mnth ≠ some mkey then
          ("## " ++ optStr st2.last_year ++ " - " ++ mkey ++ "\n\n", { st2 with last_mnth := some mkey })
        else ("", st2)
      if md.2.last_date ≠ some dkey then
        some (md.1 ++ "### " ++ dkey ++ "\n\n", { md.2 with last_date := some dkey })
      else some ("", md.2)
    | _, _ => none

/-- Feed a list of (valid, non-`None`) timestamps through `to_heading` in order,
collecting the heading of each record. -/
def runHeadings : GState → List String → Option (List String × GState)
  | st, [] => some ([], st)
  | st, t :: ts =>
    match to_heading st (some t) with
    | none => none
    | some (h, st') =>
      match runHeadings st' ts with
      | none => none
      | some (hs, stF) => some (h :: hs, stF)

/-! ### LineParser and DocumentAssembler -/

/-- One parsed (timestamp, sender, text) record; the timestamp is `None` when a
malformed line is hit before any timestamp has been seen. -/
structure Rec where
  time : Option String
  sender : String
  text : String
deriving Repr, DecidableEq

/-- A single apostrophe character (codepoint 39). -/
def sq : String :=
  ⟨[Char.ofNat 39]⟩

/-- The tab-separated fields of a raw line: `line.split('\t')`. -/
def fields (line : String) : List String :=
  pySplitS '\t' line

/-- The fallback text `"**Error reading line**: '{line}'"`. -/
def errAnnot (line : String) : String :=
  "**Error reading line**: " ++ sq ++ line ++ sq

/-- The stderr diagnostic `"\nError reading line: '{line}'\n"`. -/
def errDiag (line : String) : String :=
  "\nError reading line: " ++ sq ++ line ++ sq ++ "\n"

/-- `split_line`: unpack the three tab-separated fields; on `ValueError`
(anything but exactly three fields) write a diagnostic to stderr (the second
component) and synthesize a fallback record from the current `last_time`. -/
def split_line (last_time : Option String) (line : String) : Rec × List String :=
  match fields line with
  | [t, n, x] => (⟨some t, n, x⟩, [])
  | _ => (⟨last_time, "Unknown", errAnnot line⟩, [errDiag line])

/-- `to_small_date` applied to a possibly-`None` timestamp (a `None` raises). -/
def smallOpt : Option String → Option String
  | none => none
  | some t => to_small_date t

/-- One iteration of the loop of `convert_dm_text_markdown`: split the line,
compute the heading (mutating the grouping state), and assemble the output
block `{heading}<div class=entry>{name}{text}&ensp;{date}\n</div>\n\n`.
Returns the block, the new state and the stderr diagnostics, or `none` when the
iteration raises. -/
def processLine (css : CssMap) (st : GState) (line : String) :
    Option (String × GState × List String) :=
  let p := split_line st.last_time line
  match to_heading st p.1.time with
  | none => none
  | some (heading, st') =>
    match smallOpt p.1.time with
    | none => none
    | some sd =>
      some (heading ++ "<div class=entry>" ++ to_name css p.1.sender ++ to_text p.1.text ++
        "&ensp;" ++ sd ++ "\n</div>\n\n", st', p.2)

/-- The loop of `convert_dm_text_markdown` over the input lines: one output
block per line, in order, threading the grouping state and collecting stderr
diagnostics; `none` when some iteration raises. -/
def convert_dm_text_markdown (css : CssMap) : GState → List String → Option (List String × GState × List String)
  | st, [] => some ([], st, [])
  | st, line :: rest =>
    match processLine css st line with
    | none => none
    | some (b, st', errs) =>
      match convert_dm_text_markdown css st' rest with
      | none => none
      | some (bs, stF, errs') => some (b :: bs, stF, errs ++ errs')

/-! ### Exporter -/

/-- Outcome of invoking the external `pandoc` tool: the executable is missing
(`subprocess.Popen` raises `FileNotFoundError`), or the process runs and exits
with a status code. -/
inductive PandocOutcome where
  | missing
  | exited (code : Int)
deriving Repr, DecidableEq

/-- `convert_dm_markdown_epub`, reduced to its error flow: the source runs
`subprocess.Popen(pandoc_cmd_args).wait()`.  A missing executable raises out of
the function (`none`); otherwise `wait()`'s return value — the exit status — is
discarded and the function returns normally whatever the status was. -/
def convert_dm_markdown_epub (outcome : PandocOutcome) : Option Unit :=
  match outcome with
  | .missing => none
  | .exited _ => some ()

/-- `convert_dm_text_epub`: one conversion run.  It receives the current module
globals `st` (the source never resets them), builds the participant styles,
converts text to markdown, then invokes pandoc; any raised exception propagates
(`none`). -/
def convert_dm_text_epub (css_participants : Option String) (st : GState)
    (lines : List String) (pandoc : PandocOutcome) :
    Option (List String × GState × List String) :=
  match create_css_participant_styles [] css_participants with
  | none => none
  | some css =>
    match convert_dm_text_markdown css st lines with
    | none => none
    | some (blocks, st', errs) =>
      match convert_dm_markdown_epub pandoc with
      | none => none
      | some _ => some (blocks, st', errs)

/-! ### Concrete inputs used by the claim instances -/

/-- A valid timestamp on 2019-05-08. -/
def T1 : String := "2019-05-08T08:27:07.472Z"

/-- A second valid timestamp on the same day 2019-05-08. -/
def T1b : String := "2019-05-08T09:00:00.000Z"

/-- A valid timestamp on 2019-06-01 (new month and day). -/
def T2 : String := "2019-06-01T10:00:00.000Z"

/-- A valid timestamp on 2020-05-08: same month name as `T1`, different year. -/
def T20 : String := "2020-05-08T08:27:07.472Z"

/-- A well-formed input line carrying `T1`. -/
def LINE1 : String := "2019-05-08T08:27:07.472Z\tbob\thi\n"

/-- The grouping state after processing one record timestamped `T1`. -/
def ST1 : GState := ⟨some T1, some "2019", some "May", some "Wed 08 May 2019"⟩

/-- The grouping state after `T1` then `T1b` (same day: only `last_time` moves). -/
def ST1b : GState := ⟨some T1b, some "2019", some "May", some "Wed 08 May 2019"⟩

/-- The grouping state after `T1`, `T1b`, `T2`. -/
def ST3 : GState := ⟨some T2, some "2019", some "Jun", some "Sat 01 Jun 2019"⟩

/-- The grouping state after `T1` then `T20`. -/
def ST20 : GState := ⟨some T20, some "2020", some "May", some "Fri 08 May 2020"⟩

/-- The heading emitted for the first record timestamped `T1`. -/
def H19 : String := "## 2019 - May\n\n### Wed 08 May 2019\n\n"

/-- The full output block for `LINE1` processed from the initial state. -/
def B1 : String := "## 2019 - May\n\n### Wed 08 May 2019\n\n<div class=entry><span class=sender1>bob</span> <span class=namedash>&ndash;</span> hi&ensp;<span class=datesmall>Wed&nbsp;08&nbsp;May&nbsp;2019&nbsp;08:27</span>\n</div>\n\n"

/-- The output block for `LINE1` processed a second time, in the state `ST1`
left behind by the first run: its heading part is empty. -/
def B2 : String := "<div class=entry><span class=sender1>bob</span> <span class=namedash>&ndash;</span> hi&ensp;<span class=datesmall>Wed&nbsp;08&nbsp;May&nbsp;2019&nbsp;08:27</span>\n</div>\n\n"

/-! ### Basic string and list lemmas -/

theorem data_append (a b : String) : (a ++ b).data = a.data ++ b.data := rfl

theorem mk_data (s : String) : (⟨s.data⟩ : String) = s := rfl

theorem append_nn_ne (s : String) : s ++ "\n\n" ≠ "" := by
  intro h
  have hl := congrArg String.length h
  rw [String.length_append] at hl
  have h2 : ("\n\n" : String).length = 2 := rfl
  have h0 : ("" : String).length = 0 := rfl
  omega

theorem litPref_iff (p : List Char) : ∀ l : List Char, litPref p l = true ↔ ∃ t, l = p ++ t := by
  induction p with
  | nil => intro l; simp [litPref]
  | cons x ps ih =>
    intro l
    cases l with
    | nil => simp [litPref]
    | cons c cs =>
      simp only [litPref, Bool.and_eq_true, beq_iff_eq, ih, List.cons_append, List.cons.injEq]
      constructor
      · rintro ⟨hx, t, ht⟩
        exact ⟨t, hx.symm, ht⟩
      · rintro ⟨t, hx, ht⟩
        exact ⟨hx.symm, t, ht⟩

theorem hasSub_iff (p : List Char) : ∀ l : List Char, hasSub p l = true ↔ ∃ a b, l = a ++ p ++ b := by
  intro l
  induction l with
  | nil =>
    simp only [hasSub, litPref_iff]
    constructor
    · rintro ⟨t, ht⟩
      exact ⟨[], t, by simpa using ht⟩
    · rintro ⟨a, b, hab⟩
      obtain ⟨hap, hb⟩ := List.append_eq_nil.mp hab.symm
      obtain ⟨ha, hp⟩ := List.append_eq_nil.mp hap
      exact ⟨[], by simp [hp]⟩
  | cons c cs ih =>
    simp only [hasSub, Bool.or_eq_true, litPref_iff, ih]
    constructor
    · rintro (⟨t, ht⟩ | ⟨a, b, hab⟩)
      · exact ⟨[], t, by simpa using ht⟩
      · exact ⟨c :: a, b, by simp [hab]⟩
    · rintro ⟨a, b, hab⟩
      cases a with
      | nil => exact Or.inl ⟨b, by simpa using hab⟩
      | cons a0 as =>
        right
        rcases List.cons.inj hab with ⟨_, h2⟩
        exact ⟨as, b, by simpa using h2⟩

theorem pyReplaceAux_id (p0 : Char) (ps rep : List Char) (fuel : Nat) :
    ∀ l : List Char, (∀ c ∈ l, c ≠ p0) → pyReplaceAux p0 ps rep fuel l = l := by
  induction fuel with
  | zero => intro l _; rfl
  | succ f ih =>
    intro l h
    cases l with
    | nil => rfl
    | cons c cs =>
      rw [pyReplaceAux, if_neg]
      · exact congrArg (c :: ·) (ih cs fun x hx => h x (List.mem_cons_of_mem _ hx))
      · rintro ⟨hc, _⟩
        exact h c (List.mem_cons_self c cs) hc

theorem pyReplace_id (p0 : Char) (ps rep : List Char)
    (l : List Char) (h : ∀ c ∈ l, c ≠ p0) : pyReplace p0 ps rep l = l :=
  pyReplaceAux_id p0 ps rep l.length l h

theorem tryMatch_eq_none (l : List Char) (h : litPref ['h', 't', 't', 'p'] l = false) :
    tryMatch l = none := by
  simp [tryMatch, h]

theorem subAux_id (fuel : Nat) :
    ∀ l : List Char, hasSub ['h', 't', 't', 'p'] l = false → subAux fuel l = l := by
  induction fuel with
  | zero => intro l _; rfl
  | succ f ih =>
    intro l h
    cases l with
    | nil => rfl
    | cons c cs =>
      rw [hasSub, Bool.or_eq_false_iff] at h
      rw [subAux, tryMatch_eq_none _ h.1]
      exact congrArg (c :: ·) (ih cs h.2)

theorem to_link_id (s : String) (h : hasSub ['h', 't', 't', 'p'] s.data = false) :
    to_link s = s := by
  rw [to_link, subAux_id _ _ h]

/-! ### Lemmas about `pyStrip` -/

theorem dropWhile_twice (p : Char → Bool) (l : List Char) :
    List.dropWhile p (List.dropWhile p l) = List.dropWhile p l := by
  induction l with
  | nil => rfl
  | cons c cs ih =>
    cases hc : p c with
    | true => simp [List.dropWhile_cons, hc, ih]
    | false => simp [List.dropWhile_cons, hc]

theorem rstrip_decomp (l : List Char) : ∃ v, l = rstripCh l ++ v := by
  refine ⟨(l.reverse.takeWhile isPySpace).reverse, ?_⟩
  rw [rstripCh, ← List.reverse_append, List.takeWhile_append_dropWhile, List.reverse_reverse]

theorem pyStrip_decomp (l : List Char) : ∃ u v, l = u ++ pyStrip l ++ v := by
  obtain ⟨v, hv⟩ := rstrip_decomp (l.dropWhile isPySpace)
  refine ⟨l.takeWhile isPySpace, v, ?_⟩
  conv_lhs => rw [← List.takeWhile_append_dropWhile (p := isPySpace) (l := l)]
  rw [pyStrip, List.append_assoc]
  exact congrArg _ hv

theorem head_not_space (p : Char → Bool) (c : Char) (t : List Char)
    (h : List.dropWhile p (c :: t) = c :: t) : p c = false := by
  cases hc : p c with
  | false => rfl
  | true =>
    exfalso
    rw [List.dropWhile_cons, hc, if_pos rfl] at h
    have hle := (List.dropWhile_sublist (l := t) p).length_le
    rw [h] at hle
    simp at hle

theorem dropWhile_pres_prefix (p : Char → Bool) (l m : List Char)
    (h : List.dropWhile p l = l) (hm : ∃ t, l = m ++ t) :
    List.dropWhile p m = m := by
  cases m with
  | nil => rfl
  | cons c ms =>
    obtain ⟨t, ht⟩ := hm
    rw [ht] at h
    have hc := head_not_space p c (ms ++ t) h
    rw [List.dropWhile_cons, hc]
    simp

theorem pyStrip_idem (l : List Char) : pyStrip (pyStrip l) = pyStrip l := by
  have h1 : List.dropWhile isPySpace (pyStrip l) = pyStrip l := by
    rw [pyStrip]
    exact dropWhile_pres_prefix _ _ _ (dropWhile_twice _ _) (rstrip_decomp _)
  have h2 : rstripCh (pyStrip l) = pyStrip l := by
    rw [pyStrip, rstripCh, rstripCh, List.reverse_reverse, dropWhile_twice]
  show rstripCh (List.dropWhile isPySpace (pyStrip l)) = pyStrip l
  rw [h1, h2]

theorem mem_of_mem_pyStrip (c : Char) (l : List Char) (h : c ∈ pyStrip l) : c ∈ l := by
  obtain ⟨u, v, huv⟩ := pyStrip_decomp l
  rw [huv]
  simp [h]

theorem hasSub_pyStrip (p l : List Char) (h : hasSub p l = false) :
    hasSub p (pyStrip l) = false := by
  cases hx : hasSub p (pyStrip l) with
  | false => rfl
  | true =>
    exfalso
    obtain ⟨a, b, hab⟩ := (hasSub_iff p (pyStrip l)).mp hx
    obtain ⟨u, v, huv⟩ := pyStrip_decomp l
    have ht : hasSub p l = true :=
      (hasSub_iff p l).mpr ⟨u ++ a, b ++ v, by rw [huv, hab]; simp [List.append_assoc]⟩
    rw [ht] at h
    cases h

/-! ### Characterization of `to_heading` -/

theorem to_heading_eq (st : GState) (t mkey dkey : String)
    (hm : to_month_only t = some mkey) (hd : to_date_only t = some dkey) :
    to_heading st (some t) = some (
      (if st.last_date = some dkey then ""
       else if st.last_mnth = some mkey then "### " ++ dkey ++ "\n\n"
       else "## " ++ to_year_only t ++ " - " ++ mkey ++ "\n\n" ++ "### " ++ dkey ++ "\n\n"),
      ⟨some t, some (to_year_only t), some mkey,
        if st.last_date = some dkey then st.last_date else some dkey⟩) := by
  by_cases h1 : st.last_year = some (to_year_only t) <;>
  by_cases h2 : st.last_mnth = some mkey <;>
  by_cases h3 : st.last_date = some dkey <;>
  simp [to_heading, hm, hd, h1, h2, h3, optStr]

theorem to_heading_inv (st : GState) (t h : String) (st' : GState)
    (hr : to_heading st (some t) = some (h, st')) :
    ∃ mkey dkey, to_month_only t = some mkey ∧ to_date_only t = some dkey := by
  cases hmo : to_month_only t with
  | none => simp [to_heading, hmo] at hr
  | some mkey =>
    cases hdo : to_date_only t with
    | none => simp [to_heading, hmo, hdo] at hr
    | some dkey => exact ⟨mkey, dkey, rfl, rfl⟩

/-- The step lemma: a successful `to_heading` sets `last_date` to the day key,
`last_mnth` to the month key, `last_time` to the timestamp, and emits an empty
heading exactly when the incoming `last_date` already equals the day key. -/
theorem to_heading_step (st : GState) (t mkey dkey : String) (h : String) (st' : GState)
    (hm : to_month_only t = some mkey) (hd : to_date_only t = some dkey)
    (hr : to_heading st (some t) = some (h, st')) :
    st'.last_time = some t ∧ st'.last_mnth = some mkey ∧ st'.last_date = some dkey ∧
      (h = "" ↔ st.last_date = some dkey) := by
  rw [to_heading_eq st t mkey dkey hm hd] at hr
  have hp := Option.some.inj hr
  rw [Prod.mk.injEq] at hp
  obtain ⟨hh, hst⟩ := hp
  subst hst
  refine ⟨rfl, rfl, ?_, ?_⟩
  · show (if st.last_date = some dkey then st.last_date else some dkey) = some dkey
    by_cases h3 : st.last_date = some dkey <;> simp [h3]
  · subst hh
    by_cases h3 : st.last_date = some dkey
    · simp [h3]
    · simp only [if_neg h3]
      by_cases h2 : st.last_mnth = some mkey
      · simp only [if_pos h2]
        constructor
        · intro hc
          exact absurd hc (by exact append_nn_ne ("### " ++ dkey))
        · intro hc
          exact absurd hc h3
      · simp only [if_neg h2]
        constructor
        · intro hc
          exact absurd hc (append_nn_ne _)
        · intro hc
          exact absurd hc h3

/-- Induction lemma for sequences of records: running `to_heading` over a list
of valid timestamps from any state succeeds, yields one heading per record, the
first heading is non-empty iff the incoming `last_date` differs from the first
record's day key, and every later heading is non-empty iff its day key differs
from the immediately preceding record's. -/
theorem runHeadings_spec (ts : List String) : ∀ st : GState,
    (∀ t ∈ ts, (to_date t).isSome) →
    ∃ hs stF, runHeadings st ts = some (hs, stF) ∧ hs.length = ts.length ∧
      (∀ h0 : 0 < ts.length, ∀ h0' : 0 < hs.length,
        (hs.get ⟨0, h0'⟩ ≠ "" ↔ st.last_date ≠ to_date_only (ts.get ⟨0, h0⟩))) ∧
      (∀ i (h1 : i + 1 < ts.length) (h1' : i + 1 < hs.length) (h2 : i < ts.length),
        (hs.get ⟨i + 1, h1'⟩ ≠ "" ↔
          to_date_only (ts.get ⟨i + 1, h1⟩) ≠ to_date_only (ts.get ⟨i, h2⟩))) := by
  induction ts with
  | nil =>
    intro st _
    exact ⟨[], st, rfl, rfl, fun h0 => absurd h0 (by simp), fun i h1 => absurd h1 (by simp)⟩
  | cons t ts ih =>
    intro st hv
    have hvt : (to_date t).isSome := hv t (List.mem_cons_self t ts)
    obtain ⟨full, hfull⟩ := Option.isSome_iff_exists.mp hvt
    have hm : to_month_only t = some ⟨(full.data.drop 7).take 3⟩ := by
      rw [to_month_only, hfull]; rfl
    have hd : to_date_only t = some ⟨full.data.take 15⟩ := by
      rw [to_date_only, hfull]; rfl
    have hstep := to_heading_eq st t _ _ hm hd
    obtain ⟨hs, stF, hrun, hlen, hfirst, hcons⟩ :=
      ih (⟨some t, some (to_year_only t), some (⟨(full.data.drop 7).take 3⟩ : String),
        if st.last_date = some ⟨full.data.take 15⟩ then st.last_date
        else some ⟨full.data.take 15⟩⟩ : GState) (fun u hu => hv u (List.mem_cons_of_mem _ hu))
    have hSd : (⟨some t, some (to_year_only t), some (⟨(full.data.drop 7).take 3⟩ : String),
        if st.last_date = some ⟨full.data.take 15⟩ then st.last_date
        else some ⟨full.data.take 15⟩⟩ : GState).last_date = some ⟨full.data.take 15⟩ := by
      by_cases h3 : st.last_date = some (⟨full.data.take 15⟩ : String) <;> simp [h3]
    refine ⟨(if st.last_date = some ⟨full.data.take 15⟩ then ""
       else if st.last_mnth = some ⟨(full.data.drop 7).take 3⟩ then "### " ++ (⟨full.data.take 15⟩ : String) ++ "\n\n"
       else "## " ++ to_year_only t ++ " - " ++ (⟨(full.data.drop 7).take 3⟩ : String) ++ "\n\n" ++ "### " ++ (⟨full.data.take 15⟩ : String) ++ "\n\n") :: hs,
      stF, ?_, by simpa using hlen, ?_, ?_⟩
    · simp only [runHeadings, hstep, hrun]
    · intro h0 h0'
      show (if st.last_date = some (⟨full.data.take 15⟩ : String) then "" else _) ≠ "" ↔
        st.last_date ≠ to_date_only t
      rw [hd]
      by_cases h3 : st.last_date = some (⟨full.data.take 15⟩ : String)
      · simp [h3]
      · simp only [if_neg h3, ne_eq, h3, not_false_iff, iff_true]
        by_cases h2 : st.last_mnth = some (⟨(full.data.drop 7).take 3⟩ : String)
        · simp only [if_pos h2]
          exact append_nn_ne _
        · simp only [if_neg h2]
          exact append_nn_ne _
    · intro i h1 h1' h2
      cases i with
      | zero =>
        have ht0 : 0 < ts.length := by simpa using h1
        have ht0' : 0 < hs.length := by omega
        have hfs := hfirst ht0 ht0'
        rw [hSd] at hfs
        show hs.get ⟨0, ht0'⟩ ≠ "" ↔ to_date_only (ts.get ⟨0, ht0⟩) ≠ to_date_only t
        rw [hd, hfs]
        exact ne_comm
      | succ j =>
        have hj1 : j + 1 < ts.length := by simpa using h1
        have hj1' : j + 1 < hs.length := by omega
        have hj2 : j < ts.length := by omega
        exact hcons j hj1 hj1' hj2

/-- Unfolding lemma for `runHeadings` on a cons cell, given the two match
results. -/
theorem runHeadings_cons (st : GState) (t : String) (ts : List String) (h : String)
    (st' : GState) (hs : List String) (stF : GState)
    (hh : to_heading st (some t) = some (h, st'))
    (hr : runHeadings st' ts = some (hs, stF)) :
    runHeadings st (t :: ts) = some (h :: hs, stF) := by
  simp only [runHeadings, hh, hr]

/-! ### Lemmas about `split_line`, `processLine` and the conversion loop -/

theorem split_line_wf (lt : Option String) (line a b c : String)
    (h : fields line = [a, b, c]) :
    split_line lt line = (⟨some a, b, c⟩, []) := by
  rw [split_line, h]

theorem split_line_mal (lt : Option String) (line : String)
    (h : (fields line).length ≠ 3) :
    split_line lt line = (⟨lt, "Unknown", errAnnot line⟩, [errDiag line]) := by
  rw [split_line]
  rcases hf : fields line with _ | ⟨x, _ | ⟨y, _ | ⟨z, _ | ⟨w, tl⟩⟩⟩⟩
  · rfl
  · rfl
  · rfl
  · rw [hf] at h
    simp at h
  · rfl

theorem processLine_some (css : CssMap) (st : GState) (line t : String) (r : Rec)
    (es : List String)
    (hsplit : split_line st.last_time line = (r, es))
    (ht : r.time = some t) (hv : (to_date t).isSome) :
    ∃ b st', processLine css st line = some (b, st', es) ∧ st'.last_time = some t := by
  obtain ⟨full, hfull⟩ := Option.isSome_iff_exists.mp hv
  have hm : to_month_only t = some ⟨(full.data.drop 7).take 3⟩ := by
    rw [to_month_only, hfull]; rfl
  have hd : to_date_only t = some ⟨full.data.take 15⟩ := by
    rw [to_date_only, hfull]; rfl
  have hh := to_heading_eq st t _ _ hm hd
  have hsd : smallOpt (some t) = some ("<span class=datesmall>" ++
      (⟨pyReplace ' ' [] "&nbsp;".data full.data⟩ : String) ++ "</span>") := by
    rw [smallOpt, to_small_date, hfull]
    rfl
  refine ⟨(if st.last_date = some ⟨full.data.take 15⟩ then ""
      else if st.last_mnth = some ⟨(full.data.drop 7).take 3⟩ then
        "### " ++ (⟨full.data.take 15⟩ : String) ++ "\n\n"
      else "## " ++ to_year_only t ++ " - " ++ (⟨(full.data.drop 7).take 3⟩ : String) ++ "\n\n" ++
        "### " ++ (⟨full.data.take 15⟩ : String) ++ "\n\n") ++
      "<div class=entry>" ++ to_name css r.sender ++ to_text r.text ++ "&ensp;" ++
      ("<span class=datesmall>" ++ (⟨pyReplace ' ' [] "&nbsp;".data full.data⟩ : String) ++
        "</span>") ++ "\n</div>\n\n",
    (⟨some t, some (to_year_only t), some ⟨(full.data.drop 7).take 3⟩,
      if st.last_date = some ⟨full.data.take 15⟩ then st.last_date
      else some ⟨full.data.take 15⟩⟩ : GState), ?_, rfl⟩
  simp only [processLine, hsplit, ht, hh, hsd]

theorem convert_ok (css : CssMap) (lines : List String) : ∀ st : GState,
    (∃ t0, st.last_time = some t0 ∧ (to_date t0).isSome) →
    (∀ l ∈ lines, (fields l).length = 3 → (to_date ((fields l).headD "")).isSome) →
    ∃ bs stF errs, convert_dm_text_markdown css st lines = some (bs, stF, errs) ∧
      bs.length = lines.length := by
  induction lines with
  | nil =>
    intro st _ _
    exact ⟨[], st, [], rfl, rfl⟩
  | cons line rest ih =>
    intro st hP hall
    by_cases h3 : (fields line).length = 3
    · obtain ⟨a, b, c, hf⟩ := List.length_eq_three.mp h3
      have hv : (to_date a).isSome := by
        have := hall line (List.mem_cons_self line rest) h3
        rw [hf] at this
        simpa using this
      obtain ⟨blk, st', hpl, hlt⟩ :=
        processLine_some css st line a ⟨some a, b, c⟩ []
          (split_line_wf st.last_time line a b c hf) rfl hv
      obtain ⟨bs, stF, errs, hcv, hlen⟩ :=
        ih st' ⟨a, hlt, hv⟩ (fun l hl => hall l (List.mem_cons_of_mem _ hl))
      refine ⟨blk :: bs, stF, [] ++ errs, ?_, by simp [hlen]⟩
      simp only [convert_dm_text_markdown, hpl, hcv]
    · obtain ⟨t0, hlt0, hv0⟩ := hP
      obtain ⟨blk, st', hpl, hlt⟩ :=
        processLine_some css st line t0 ⟨st.last_time, "Unknown", errAnnot line⟩
          [errDiag line] (split_line_mal st.last_time line h3) hlt0 hv0
      obtain ⟨bs, stF, errs, hcv, hlen⟩ :=
        ih st' ⟨t0, hlt, hv0⟩ (fun l hl => hall l (List.mem_cons_of_mem _ hl))
      refine ⟨blk :: bs, stF, [errDiag line] ++ errs, ?_, by simp [hlen]⟩
      simp only [convert_dm_text_markdown, hpl, hcv]

/-! ### Lemmas for the participant style map -/

theorem length_pySplit (sep : Char) : ∀ l : List Char,
    (pySplit sep l).length = countChar sep l + 1 := by
  intro l
  induction l with
  | nil => rfl
  | cons c cs ih =>
    by_cases hc : c = sep
    · simp [pySplit, hc, countChar, ih]
      omega
    · have hlen : 1 ≤ (pySplit sep cs).length := by
        rw [ih]; omega
      rcases hr : pySplit sep cs with _ | ⟨h0, t0⟩
      · rw [hr] at hlen
        simp at hlen
      · rw [pySplit, if_neg hc, hr]
        rw [hr] at ih
        simp only [countChar, if_neg hc, List.length_cons] at ih ⊢
        omega

theorem countChar_pySplitS (sep : Char) (s : String) :
    (pySplitS sep s).length = countChar sep s.data + 1 := by
  rw [pySplitS, List.length_map, length_pySplit]

theorem cssFold_none_iff : ∀ (segs : List String) (d : CssMap),
    cssFold d segs = none ↔ ∃ seg ∈ segs, (pySplitS ':' seg).length ≠ 2 := by
  intro segs
  induction segs with
  | nil =>
    intro d
    simp [cssFold]
  | cons seg rest ih =>
    intro d
    rcases hsp : pySplitS ':' seg with _ | ⟨k, _ | ⟨v, _ | ⟨w, tl⟩⟩⟩
    · simp only [cssFold, hsp]
      simp [hsp]
    · simp only [cssFold, hsp]
      simp [hsp]
    · simp only [cssFold, hsp, ih]
      constructor
      · rintro ⟨s, hs, hne⟩
        exact ⟨s, List.mem_cons_of_mem _ hs, hne⟩
      · rintro ⟨s, hs, hne⟩
        rcases List.mem_cons.mp hs with rfl | hmem
        · rw [hsp] at hne
          simp at hne
        · exact ⟨s, hmem, hne⟩
    · simp only [cssFold, hsp]
      simp [hsp]

/-! ### Lemmas for the sanitizer -/

theorem to_text_eq_strip (s : String)
    (hb : '\\' ∉ s.data) (hk : '[' ∉ s.data)
    (hh : hasSub ['h', 't', 't', 'p'] s.data = false) :
    to_text s = ⟨pyStrip s.data⟩ := by
  rw [to_text]
  rw [pyReplace_id '\\' ['n'] ['\n'] (pyStrip s.data)
    (fun c hc hc2 => hb (hc2 ▸ mem_of_mem_pyStrip c s.data hc))]
  rw [pyReplace_id '[' [] ['\\', '['] (pyStrip s.data)
    (fun c hc hc2 => hk (hc2 ▸ mem_of_mem_pyStrip c s.data hc))]
  exact to_link_id _ (hasSub_pyStrip _ _ hh)

/-! ### Claim theorems -/

/-- C1: for every sequence of records with valid timestamps processed from the
initial empty grouping state, `to_heading` returns a non-empty heading for the
first record and for exactly those subsequent records whose day-level
date-grouping-key (`to_date_only`) differs from the immediately preceding
record's, and the empty string for every other record. -/
theorem heading_iff_new_day (ts hs : List String) (stF : GState)
    (hv : ∀ t ∈ ts, (to_date t).isSome)
    (hrun : runHeadings initState ts = some (hs, stF)) :
    hs.length = ts.length ∧
    (∀ h0 : 0 < hs.length, hs.get ⟨0, h0⟩ ≠ "") ∧
    (∀ i (h1 : i + 1 < hs.length) (h2 : i + 1 < ts.length) (h3 : i < ts.length),
      (hs.get ⟨i + 1, h1⟩ ≠ "" ↔
        to_date_only (ts.get ⟨i + 1, h2⟩) ≠ to_date_only (ts.get ⟨i, h3⟩))) := by
  obtain ⟨hs', stF', hrun', hlen, hfirst, hcons⟩ := runHeadings_spec ts initState hv
  rw [hrun] at hrun'
  have hp := Option.some.inj hrun'
  rw [Prod.mk.injEq] at hp
  obtain ⟨rfl, rfl⟩ := hp
  refine ⟨hlen, ?_, ?_⟩
  · intro h0
    have ht0 : 0 < ts.length := hlen ▸ h0
    obtain ⟨f, hf⟩ :=
      Option.isSome_iff_exists.mp (hv (ts.get ⟨0, ht0⟩) (List.get_mem ts 0 ht0))
    refine (hfirst ht0 h0).mpr ?_
    simp only [List.get_eq_getElem] at hf
    simp [initState, to_date_only, hf]
  · intro i h1 h2 h3
    exact hcons i h2 h1 h3

/-- C1 witness: the three records dated 2019-05-08, 2019-05-08, 2019-06-01 give
a non-empty heading for record 3 (and the hypotheses hold concretely). -/
theorem heading_iff_new_day_witness :
    ("## 2019 - Jun\n\n### Sat 01 Jun 2019\n\n" : String) ≠ "" := by
  have h1 : to_heading initState (some T1) = some (H19, ST1) := rfl
  have h2 : to_heading ST1 (some T1b) = some ("", ST1b) := rfl
  have h3 : to_heading ST1b (some T2) =
      some ("## 2019 - Jun\n\n### Sat 01 Jun 2019\n\n", ST3) := rfl
  have hrun : runHeadings initState [T1, T1b, T2] =
      some ([H19, "", "## 2019 - Jun\n\n### Sat 01 Jun 2019\n\n"], ST3) := by
    simp only [runHeadings, h1, h2, h3]
  have h := heading_iff_new_day [T1, T1b, T2]
    [H19, "", "## 2019 - Jun\n\n### Sat 01 Jun 2019\n\n"] ST3 (by decide) hrun
  exact (h.2.2 1 (by decide) (by decide) (by decide)).mpr (by decide)

/-- C2 counterexample: the records May 2019 then May 2020 have different
year+month combinations, yet the second record's heading is only the date line
(no `"## 2020 - May"` month line) and the stored month key stays `"May"`:
the code's month-grouping-key is the month abbreviation alone. -/
theorem month_key_counterexample :
    runHeadings initState [T1, T20] = some ([H19, "### Fri 08 May 2020\n\n"], ST20) ∧
    ST20.last_mnth = some "May" := by
  have h1 : to_heading initState (some T1) = some (H19, ST1) := rfl
  have h2 : to_heading ST1 (some T20) = some ("### Fri 08 May 2020\n\n", ST20) := rfl
  exact ⟨runHeadings_cons _ _ _ _ _ _ _ h1 (runHeadings_cons _ _ _ _ _ _ _ h2 rfl), rfl⟩

/-- C2 (amended): the month-grouping-key is the month abbreviation alone
(`to_month_only`, chars 7–10 of the display string), not year+month: a
successful `to_heading` always stores the month abbreviation, and when the
incoming month key already equals it — even across different years — the
emitted heading contains no month line (it is empty or just the date line). -/
theorem month_key_is_month_abbrev (st : GState) (t h : String) (st' : GState)
    (mk : String)
    (hr : to_heading st (some t) = some (h, st')) (hm : to_month_only t = some mk) :
    st'.last_mnth = some mk ∧
    (st.last_mnth = some mk →
      h = "" ∨ ∃ dk, to_date_only t = some dk ∧ h = "### " ++ dk ++ "\n\n") := by
  obtain ⟨mkey, dkey, hm', hd'⟩ := to_heading_inv st t h st' hr
  have hmk : mkey = mk := by
    rw [hm'] at hm
    exact Option.some.inj hm
  subst hmk
  rw [to_heading_eq st t mkey dkey hm' hd'] at hr
  have hp := Option.some.inj hr
  rw [Prod.mk.injEq] at hp
  obtain ⟨hh, hst⟩ := hp
  constructor
  · rw [← hst]
  · intro hmn
    rw [← hh]
    by_cases hc : st.last_date = some dkey
    · left
      simp [hc]
    · right
      exact ⟨dkey, hd', by simp [hc, hmn]⟩

/-- C2 witness: the amended theorem applied to the May 2019 → May 2020 pair. -/
theorem month_key_witness :
    ST20.last_mnth = some "May" ∧
    (ST1.last_mnth = some "May" →
      "### Fri 08 May 2020\n\n" = "" ∨
      ∃ dk, to_date_only T20 = some dk ∧
        ("### Fri 08 May 2020\n\n" : String) = "### " ++ dk ++ "\n\n") :=
  month_key_is_month_abbrev ST1 T20 "### Fri 08 May 2020\n\n" ST20 "May" rfl rfl

/-- C3 counterexample: a file whose very first line is malformed aborts the
conversion (the fallback timestamp is `None` and `to_year_only(None)` raises
`TypeError`), producing no output blocks at all instead of one block. -/
theorem first_line_malformed_aborts :
    convert_dm_text_markdown [] initState ["garbage"] = none := rfl

/-- C3 (amended): provided the first line splits into exactly three
tab-separated fields and every well-formed line carries a parseable timestamp,
the conversion loop never aborts — malformed lines anywhere after the first
line included — and the markdown document has exactly one block per input
line.  (A file whose very first line is malformed aborts instead.) -/
theorem one_block_per_line (css : CssMap) (lines : List String)
    (hall : ∀ l ∈ lines, (fields l).length = 3 → (to_date ((fields l).headD "")).isSome)
    (hhead : ∀ l ∈ lines.take 1, (fields l).length = 3) :
    ∃ bs stF errs, convert_dm_text_markdown css initState lines = some (bs, stF, errs) ∧
      bs.length = lines.length := by
  cases lines with
  | nil => exact ⟨[], initState, [], rfl, rfl⟩
  | cons line rest =>
    have h3 : (fields line).length = 3 := hhead line (by simp)
    obtain ⟨a, b, c, hf⟩ := List.length_eq_three.mp h3
    have hv : (to_date a).isSome := by
      have := hall line (List.mem_cons_self line rest) h3
      rw [hf] at this
      simpa using this
    obtain ⟨blk, st', hpl, hlt⟩ :=
      processLine_some css initState line a ⟨some a, b, c⟩ []
        (split_line_wf initState.last_time line a b c hf) rfl hv
    obtain ⟨bs, stF, errs, hcv, hlen⟩ :=
      convert_ok css rest st' ⟨a, hlt, hv⟩ (fun l hl => hall l (List.mem_cons_of_mem _ hl))
    refine ⟨blk :: bs, stF, [] ++ errs, ?_, by simp [hlen]⟩
    simp only [convert_dm_text_markdown, hpl, hcv]

/-- C3 witness: a good first line followed by a malformed line yields exactly
two blocks. -/
theorem one_block_witness :
    ∃ bs stF errs,
      convert_dm_text_markdown [] initState [LINE1, "oops no tabs"] =
        some (bs, stF, errs) ∧ bs.length = 2 :=
  one_block_per_line [] [LINE1, "oops no tabs"] (by decide) (by decide)

/-- C4 counterexample: the sanitizer is not idempotent — on the one-character
string `"["` it yields `"\["`, and a second application re-escapes to
`"\\["`. -/
theorem to_text_not_idempotent : to_text (to_text "[") ≠ to_text "[" := by decide

/-- C4 (amended): `to_text` is idempotent only on strings free of the
characters its passes introduce or consume: for every string with no `[`, no
backslash and no occurrence of `"http"`, applying it twice equals applying it
once (both equal the stripped string). -/
theorem to_text_idem_plain (s : String)
    (hb : '\\' ∉ s.data) (hk : '[' ∉ s.data)
    (hh : hasSub ['h', 't', 't', 'p'] s.data = false) :
    to_text (to_text s) = to_text s := by
  rw [to_text_eq_strip s hb hk hh]
  have hb' : '\\' ∉ (⟨pyStrip s.data⟩ : String).data :=
    fun hc => hb (mem_of_mem_pyStrip _ _ hc)
  have hk' : '[' ∉ (⟨pyStrip s.data⟩ : String).data :=
    fun hc => hk (mem_of_mem_pyStrip _ _ hc)
  have hh' : hasSub ['h', 't', 't', 'p'] (⟨pyStrip s.data⟩ : String).data = false :=
    hasSub_pyStrip _ _ hh
  rw [to_text_eq_strip _ hb' hk' hh']
  exact congrArg String.mk (pyStrip_idem s.data)

/-- C4 witness: idempotence on a plain string. -/
theorem to_text_idem_witness :
    to_text (to_text " hello world ") = to_text " hello world " :=
  to_text_idem_plain " hello world " (by decide) (by decide) (by decide)

/-- C5: for every raw line that does not split into exactly three tab-separated
fields, `split_line` returns the fallback record — timestamp equal to the
current `last_time` (the most recent timestamp seen, or the `None` sentinel),
sender the fixed sentinel `"Unknown"`, text containing the offending raw
line — and writes a diagnostic containing the raw line to the stderr channel,
which is separate from the document output. -/
theorem split_line_fallback (lt : Option String) (line : String)
    (h : (fields line).length ≠ 3) :
    split_line lt line = (⟨lt, "Unknown", errAnnot line⟩, [errDiag line]) ∧
    hasSub line.data (errAnnot line).data = true ∧
    hasSub line.data (errDiag line).data = true := by
  refine ⟨split_line_mal lt line h, ?_, ?_⟩
  · refine (hasSub_iff line.data (errAnnot line).data).mpr
      ⟨("**Error reading line**: " ++ sq).data, sq.data, ?_⟩
    rw [errAnnot]
    simp [data_append, List.append_assoc]
  · refine (hasSub_iff line.data (errDiag line).data).mpr
      ⟨("\nError reading line: " ++ sq).data, (sq ++ "\n").data, ?_⟩
    rw [errDiag]
    simp [data_append, List.append_assoc]

/-- C5 witness: the fallback on a concrete malformed line with no timestamp
seen yet. -/
theorem split_line_fallback_witness :
    split_line none "bogus line" =
      (⟨none, "Unknown", errAnnot "bogus line"⟩, [errDiag "bogus line"]) ∧
    hasSub "bogus line".data (errAnnot "bogus line").data = true ∧
    hasSub "bogus line".data (errDiag "bogus line").data = true :=
  split_line_fallback none "bogus line" (by decide)

/-- C6 counterexample: a non-zero pandoc exit status is swallowed, not
propagated — the conversion returns normally and is indistinguishable from a
successful exit. -/
theorem pandoc_exit_swallowed :
    convert_dm_markdown_epub (PandocOutcome.exited 1) = some () ∧
    convert_dm_markdown_epub (PandocOutcome.exited 1) =
      convert_dm_markdown_epub (PandocOutcome.exited 0) := ⟨rfl, rfl⟩

/-- C6 (amended): a missing pandoc executable propagates to the caller
(`subprocess.Popen` raises), but a non-zero exit status does not: `wait()`'s
return value is discarded and the conversion returns normally for every exit
code. -/
theorem pandoc_error_flow :
    convert_dm_markdown_epub PandocOutcome.missing = none ∧
    ∀ c : Int, convert_dm_markdown_epub (PandocOutcome.exited c) = some () :=
  ⟨rfl, fun _ => rfl⟩

/-- C7 counterexample: the grouping state survives the end of a conversion run —
running the same one-line file twice in one process makes the second run start
from the first run's final state, and its first record gets an empty heading. -/
theorem state_survives_runs :
    convert_dm_text_epub none initState [LINE1] (PandocOutcome.exited 0) =
      some ([B1], ST1, []) ∧
    convert_dm_text_epub none ST1 [LINE1] (PandocOutcome.exited 0) =
      some ([B2], ST1, []) ∧
    to_heading ST1 (some T1) = some ("", ST1) := ⟨rfl, rfl, rfl⟩

/-- C7 (amended): the grouping state is process-wide and never reset by a
conversion run: a record's heading is empty exactly when the incoming state's
`last_date` equals the record's day key, so the first record of a run gets a
non-empty heading iff the state left by any earlier run differs on the day
key — always true in a fresh process (empty initial state), but not in a second
run in the same process. -/
theorem heading_state_not_reset :
    (∀ t h st', to_heading initState (some t) = some (h, st') → h ≠ "") ∧
    (∀ st t h st', to_heading st (some t) = some (h, st') →
      (h = "" ↔ st.last_date = to_date_only t)) := by
  have main : ∀ st t h st', to_heading st (some t) = some (h, st') →
      (h = "" ↔ st.last_date = to_date_only t) := by
    intro st t h st' hr
    obtain ⟨mkey, dkey, hm, hd⟩ := to_heading_inv st t h st' hr
    obtain ⟨_, _, _, hiff⟩ := to_heading_step st t mkey dkey h st' hm hd hr
    rw [hd]
    exact hiff
  constructor
  · intro t h st' hr hemp
    have hld := (main initState t h st' hr).mp hemp
    obtain ⟨mkey, dkey, hm, hd⟩ := to_heading_inv initState t h st' hr
    rw [hd] at hld
    exact Option.noConfusion hld
  · exact main

/-- C7 witness: in a fresh process the first record's heading is non-empty. -/
theorem heading_state_witness : H19 ≠ "" :=
  heading_state_not_reset.1 T1 H19 ST1 rfl

/-- C8: `to_link` on `"see http://example.com/x.html now"` wraps exactly the
whole URL in a markdown link and leaves the surrounding text unchanged. -/
theorem to_link_example :
    to_link "see http://example.com/x.html now" =
      "see [http://example.com/x.html](http://example.com/x.html) now" := by decide

/-- C9: for the valid timestamp `"2019-05-08T08:27:07.472Z"`, the year-only
projection is `"2019"` (the first four raw characters) and the date-only
projection is `"Wed 08 May 2019"`, the first 15 characters of the full display
string `"Wed 08 May 2019 08:27"`. -/
theorem date_projections_example :
    to_year_only "2019-05-08T08:27:07.472Z" = "2019" ∧
    to_date "2019-05-08T08:27:07.472Z" = some "Wed 08 May 2019 08:27" ∧
    to_date_only "2019-05-08T08:27:07.472Z" = some "Wed 08 May 2019" := ⟨rfl, rfl, rfl⟩

/-- C10: building the participant style map from a non-empty configuration
string fails (unhandled `ValueError` from tuple unpacking) iff some
comma-separated segment does not contain exactly one `':'`; and when it fails,
the whole conversion run aborts before any record is processed, whatever the
input lines. -/
theorem css_segments_one_colon (d : CssMap) (cfg : String) (hne : cfg ≠ "") :
    (create_css_participant_styles d (some cfg) = none ↔
      ∃ seg ∈ pySplitS ',' cfg, countChar ':' seg.data ≠ 1) ∧
    ((∃ seg ∈ pySplitS ',' cfg, countChar ':' seg.data ≠ 1) →
      ∀ st lines pandoc, convert_dm_text_epub (some cfg) st lines pandoc = none) := by
  have hiff : ∀ d' : CssMap, (create_css_participant_styles d' (some cfg) = none ↔
      ∃ seg ∈ pySplitS ',' cfg, countChar ':' seg.data ≠ 1) := by
    intro d'
    show (if cfg = "" then some d' else cssFold d' (pySplitS ',' cfg)) = none ↔ _
    rw [if_neg hne, cssFold_none_iff]
    exact exists_congr fun seg => and_congr_right fun _ => by
      rw [countChar_pySplitS]
      omega
  refine ⟨hiff d, ?_⟩
  intro hbad st lines pandoc
  have h0 := (hiff []).mpr hbad
  simp [convert_dm_text_epub, h0]

/-- C10 witness: a configuration whose second segment has no colon fails. -/
theorem css_segments_witness :
    create_css_participant_styles [] (some "alice:sender2,bob") = none :=
  (css_segments_one_colon [] "alice:sender2,bob" (by decide)).1.mpr (by decide)

end ScrapeTwitterDm
